import Mathlib

/-!
# Verification of the multisig data model and threshold engine

Shallow embedding of the `multisig` crate: the canonical byte codec for
`Multisig` values (`src/ms.rs`), the attribute registry (`src/attrid.rs`),
and the BLS12-381 threshold view — `ThresholdData`, `add_share`, `combine`
(`src/sig_views/bls12381.rs`).  Bytes are modelled as `Nat` lists, the
external `multiutil` varuint/varbytes helpers as the standard unsigned
varint (LEB128, 7 bits per byte), and `BTreeMap` as a strictly-sorted
association list.  The external `blsful` share-combination primitive is a
parameter of `combine`.
-/

/-! ## Unsigned varint (external `multiutil::Varuint`)

The multiformats unsigned varint: little-endian 7-bit groups, high bit set
on every byte except the last.  `encVA` carries explicit fuel (always
sufficient when fuel ≥ n) so that the function is structurally recursive
and kernel-computable. -/

/-- Fuel-indexed varint encoder; `fuel ≥ n` always suffices. -/
def encVA : Nat → Nat → List Nat
  | 0, n => [n]
  | f + 1, n => if n < 128 then [n] else (n % 128 + 128) :: encVA f (n / 128)

/-- Encode a natural number as a multiformats unsigned varint. -/
def encVaruint (n : Nat) : List Nat :=
  encVA n n

/-- Decode an unsigned varint from the front of a byte list, returning the
value and the unconsumed remainder. -/
def decVaruint : List Nat → Option (Nat × List Nat)
  | [] => none
  | b :: rest =>
    if b < 128 then some (b, rest)
    else
      match decVaruint rest with
      | some (n, r) => some (n * 128 + (b - 128), r)
      | none => none

theorem decVaruint_encVA (f n : Nat) (rest : List Nat) (h : n ≤ f) :
    decVaruint (encVA f n ++ rest) = some (n, rest) := by
  induction f generalizing n with
  | zero =>
    have : n = 0 := Nat.le_zero.mp h
    subst this
    simp [encVA, decVaruint]
  | succ k ih =>
    by_cases hn : n < 128
    · simp [encVA, decVaruint, hn]
    · have h128 : ¬ (n % 128 + 128 < 128) := by omega
      have hdiv : n / 128 ≤ k := by
        have h1 : 0 < n := by omega
        have := Nat.div_lt_self h1 (by omega : 1 < 128)
        omega
      simp only [encVA, hn, if_false, List.cons_append, decVaruint, h128,
        ih (n / 128) hdiv]
      have hx : n / 128 * 128 + (n % 128 + 128 - 128) = n := by
        have := Nat.div_add_mod n 128
        omega
      rw [hx]

/-- Round trip for the unsigned varint: decoding what was encoded yields the
original value and leaves the rest of the stream untouched. -/
theorem decVaruint_encVaruint (n : Nat) (rest : List Nat) :
    decVaruint (encVaruint n ++ rest) = some (n, rest) :=
  decVaruint_encVA n n rest (Nat.le_refl n)

/-! ## Varbytes (external `multiutil::Varbytes`): varint length prefix + raw bytes -/

/-- Encode a byte string with a varint length prefix. -/
def encVarbytes (b : List Nat) : List Nat :=
  encVaruint b.length ++ b

/-- Decode a length-prefixed byte string from the front of a stream. -/
def decVarbytes (l : List Nat) : Option (List Nat × List Nat) :=
  match decVaruint l with
  | none => none
  | some (n, r) => if n ≤ r.length then some (r.take n, r.drop n) else none

theorem decVarbytes_encVarbytes (b rest : List Nat) :
    decVarbytes (encVarbytes b ++ rest) = some (b, rest) := by
  simp only [decVarbytes, encVarbytes, List.append_assoc, decVaruint_encVaruint]
  have hle : b.length ≤ (b ++ rest).length := by simp
  simp [hle, List.take_left, List.drop_left]

/-! ## Sorted association lists (model of `std::collections::BTreeMap`)

Both `Attributes = BTreeMap<AttrId, Vec<u8>>` (`src/ms.rs`) and
`ThresholdData(BTreeMap<u8, SigShare>)` (`src/sig_views/bls12381.rs`) are
ordered maps iterated in ascending key order.  We model them as association
lists strictly sorted by a `Nat` key (for attributes the key is the
`AttrId` one-byte code). -/


/-- Association list keyed by `Nat`, used sorted in strictly ascending key
order. -/
abbrev SMap (α : Type) : Type := List (Nat × α)

/-- Keys of the map, in list order. -/
def SMap.keys {α : Type} (m : SMap α) : List Nat :=
  m.map Prod.fst

/-- Lookup (`BTreeMap::get`). -/
def SMap.find? {α : Type} (k : Nat) : SMap α → Option α
  | [] => none
  | (k', v') :: t => if k = k' then some v' else SMap.find? k t

/-- Insert, overwriting an existing binding (`BTreeMap::insert`), keeping the
list sorted. -/
def SMap.ins {α : Type} (k : Nat) (v : α) : SMap α → SMap α
  | [] => [(k, v)]
  | (k', v') :: t =>
    if k < k' then (k, v) :: (k', v') :: t
    else if k = k' then (k, v) :: t
    else (k', v') :: SMap.ins k v t

/-- Well-formedness: keys strictly ascending (the `BTreeMap` invariant). -/
def SMap.Wf {α : Type} (m : SMap α) : Prop :=
  List.Pairwise (fun p q => p.1 < q.1) m

instance {α : Type} (m : SMap α) : Decidable (SMap.Wf m) :=
  inferInstanceAs (Decidable (List.Pairwise _ _))

theorem SMap.find?_ins {α : Type} (k k' : Nat) (v : α) (m : SMap α) :
    SMap.find? k (SMap.ins k' v m) = if k = k' then some v else SMap.find? k m := by
  induction m with
  | nil => simp only [SMap.ins, SMap.find?]
  | cons p t ih =>
    obtain ⟨k0, v0⟩ := p
    rcases Nat.lt_trichotomy k' k0 with h1 | h1 | h1
    · simp only [SMap.ins, if_pos h1, SMap.find?]
    · subst h1
      rw [show SMap.ins k' v ((k', v0) :: t) = (k', v) :: t from by simp [SMap.ins]]
      simp only [SMap.find?]
      by_cases h : k = k' <;> simp [h]
    · have hn1 : ¬ k' < k0 := by omega
      have hn2 : ¬ k' = k0 := by omega
      simp only [SMap.ins, if_neg hn1, if_neg hn2, SMap.find?, ih]
      by_cases h : k = k0
      · subst h
        have hne : ¬ k = k' := by omega
        simp [hne]
      · by_cases h' : k = k' <;> simp [h, h', hn2]

theorem SMap.ins_mem_keys {α : Type} (k k' : Nat) (v : α) (m : SMap α) :
    k ∈ SMap.keys (SMap.ins k' v m) ↔ k = k' ∨ k ∈ SMap.keys m := by
  induction m with
  | nil => simp [SMap.ins, SMap.keys]
  | cons p t ih =>
    obtain ⟨k0, v0⟩ := p
    rcases Nat.lt_trichotomy k' k0 with h1 | h1 | h1
    · simp only [SMap.ins, if_pos h1, SMap.keys, List.map_cons, List.mem_cons]
    · subst h1
      rw [show SMap.ins k' v ((k', v0) :: t) = (k', v) :: t from by simp [SMap.ins]]
      simp only [SMap.keys, List.map_cons, List.mem_cons]
      tauto
    · have hn1 : ¬ k' < k0 := by omega
      have hn2 : ¬ k' = k0 := by omega
      simp only [SMap.ins, if_neg hn1, if_neg hn2, SMap.keys, List.map_cons,
        List.mem_cons]
      simp only [SMap.keys] at ih
      rw [ih]
      tauto

theorem SMap.ins_wf {α : Type} (k : Nat) (v : α) (m : SMap α) (h : SMap.Wf m) :
    SMap.Wf (SMap.ins k v m) := by
  induction m with
  | nil => simp [SMap.ins, SMap.Wf]
  | cons p t ih =>
    obtain ⟨k0, v0⟩ := p
    simp only [SMap.Wf, List.pairwise_cons] at h
    obtain ⟨h0, h1⟩ := h
    rcases Nat.lt_trichotomy k k0 with hc | hc | hc
    · simp only [SMap.ins, if_pos hc, SMap.Wf, List.pairwise_cons]
      refine ⟨?_, h0, h1⟩
      intro q hq
      rcases List.mem_cons.mp hq with rfl | hmem
      · exact hc
      · have := h0 q hmem
        omega
    · subst hc
      rw [show SMap.ins k v ((k, v0) :: t) = (k, v) :: t from by simp [SMap.ins]]
      simp only [SMap.Wf, List.pairwise_cons]
      exact ⟨h0, h1⟩
    · have hn1 : ¬ k < k0 := by omega
      have hn2 : ¬ k = k0 := by omega
      simp only [SMap.ins, if_neg hn1, if_neg hn2, SMap.Wf, List.pairwise_cons]
      constructor
      · intro q hq
        have hkeys : q.1 = k ∨ q.1 ∈ SMap.keys t :=
          (SMap.ins_mem_keys q.1 k v t).mp (List.mem_map_of_mem Prod.fst hq)
        rcases hkeys with h | h
        · omega
        · simp only [SMap.keys] at h
          obtain ⟨q', hq', he⟩ := List.mem_map.mp h
          have := h0 q' hq'
          omega
      · exact ih h1

theorem SMap.ins_append {α : Type} (k : Nat) (v : α) (m : SMap α)
    (h : ∀ p ∈ m, p.1 < k) :
    SMap.ins k v m = m ++ [(k, v)] := by
  induction m with
  | nil => simp [SMap.ins]
  | cons p t ih =>
    obtain ⟨k0, v0⟩ := p
    have hk0 : k0 < k := h (k0, v0) (List.mem_cons_self _ _)
    have h1 : ¬ k < k0 := by omega
    have h2 : ¬ k = k0 := by omega
    simp only [SMap.ins, if_neg h1, if_neg h2, List.cons_append, List.cons.injEq,
      true_and]
    exact ih (fun p hp => h p (List.mem_cons_of_mem _ hp))

theorem SMap.length_ins_new {α : Type} (k : Nat) (v : α) (m : SMap α)
    (h : k ∉ SMap.keys m) :
    (SMap.ins k v m).length = m.length + 1 := by
  induction m with
  | nil => simp [SMap.ins]
  | cons p t ih =>
    obtain ⟨k0, v0⟩ := p
    simp only [SMap.keys, List.map_cons, List.mem_cons] at h
    push_neg at h
    obtain ⟨hne, hmem⟩ := h
    rcases Nat.lt_trichotomy k k0 with h1 | h1 | h1
    · simp [SMap.ins, if_pos h1]
    · exact absurd h1 hne
    · have hn1 : ¬ k < k0 := by omega
      have hn2 : ¬ k = k0 := by omega
      simp only [SMap.ins, if_neg hn1, if_neg hn2, List.length_cons]
      have hih := ih (by simpa [SMap.keys] using hmem)
      omega

/-! ## Codec registry (external `multicodec::Codec`)

The multicodec registry is an external crate: a codec is a registry number,
wire-encoded as an unsigned varint, and decoding fails on numbers absent
from the table.  We model a codec as its `Nat` registry number and restrict
the table to the codes this crate touches.  `multisig` (the sigil) and
`identity` carry their registry values; the claims depend on no other
numeric value, only on the codes being pairwise distinct. -/

namespace Codec

/-- The identity codec, `Codec::default()`. -/
def identity : Nat := 0x00

/-- The `raw` payload-encoding codec. -/
def raw : Nat := 0x55

/-- The Multisig sigil, `Codec::Multisig` (`SIGIL` in `src/ms.rs`). -/
def multisig : Nat := 0x1239

/-- `Codec::EddsaMsig`. -/
def eddsaMsig : Nat := 0x1a01

/-- `Codec::Es256KMsig`. -/
def es256kMsig : Nat := 0x1a02

/-- `Codec::Bls12381G1Msig`. -/
def bls12381G1Msig : Nat := 0x1a03

/-- `Codec::Bls12381G2Msig`. -/
def bls12381G2Msig : Nat := 0x1a04

/-- `Codec::Bls12381G1ShareMsig`. -/
def bls12381G1ShareMsig : Nat := 0x1a05

/-- `Codec::Bls12381G2ShareMsig`. -/
def bls12381G2ShareMsig : Nat := 0x1a06

/-- `Codec::Bls12381G1Sig`. -/
def bls12381G1Sig : Nat := 0x1a07

/-- `Codec::Bls12381G2Sig`. -/
def bls12381G2Sig : Nat := 0x1a08

/-- `Codec::Bls12381G1SigShare`. -/
def bls12381G1SigShare : Nat := 0x1a09

/-- `Codec::Bls12381G2SigShare`. -/
def bls12381G2SigShare : Nat := 0x1a0a

/-- The slice of the multicodec table relevant to this crate. -/
def table : List Nat :=
  [identity, raw, multisig, eddsaMsig, es256kMsig,
   bls12381G1Msig, bls12381G2Msig, bls12381G1ShareMsig, bls12381G2ShareMsig,
   bls12381G1Sig, bls12381G2Sig, bls12381G1SigShare, bls12381G2SigShare]

/-- `Codec::try_from(u64)` succeeds exactly on registered numbers. -/
def isValid (c : Nat) : Bool := table.contains c

end Codec

/-- `Codec::try_decode_from`: read an unsigned varint and check it against
the registry. -/
def decCodec (l : List Nat) : Option (Nat × List Nat) :=
  match decVaruint l with
  | none => none
  | some (c, r) => if Codec.isValid c then some (c, r) else none

theorem decCodec_encVaruint (c : Nat) (rest : List Nat)
    (h : Codec.isValid c = true) :
    decCodec (encVaruint c ++ rest) = some (c, rest) := by
  simp [decCodec, decVaruint_encVaruint, h]

/-! ## Attribute registry (`src/attrid.rs`)

`AttrId` is a closed enumeration with one-byte codes 0–6; `try_from(u8)`
fails with `InvalidAttributeValue` outside that range.  Attribute maps are
keyed by the code. -/

namespace AttrId

/-- `AttrId::SigData`. -/
def sigData : Nat := 0

/-- `AttrId::PayloadEncoding`. -/
def payloadEncoding : Nat := 1

/-- `AttrId::Scheme`. -/
def scheme : Nat := 2

/-- `AttrId::Threshold`. -/
def threshold : Nat := 3

/-- `AttrId::Limit`. -/
def limit : Nat := 4

/-- `AttrId::ShareIdentifier`. -/
def shareIdentifier : Nat := 5

/-- `AttrId::ThresholdData`. -/
def thresholdData : Nat := 6

/-- `AttrId::try_from(u8)` succeeds exactly on codes 0–6. -/
def valid (c : Nat) : Prop := c < 7

instance (c : Nat) : Decidable (AttrId.valid c) :=
  inferInstanceAs (Decidable (c < 7))

end AttrId

/-! ## Errors (`src/error.rs`)

The crate's nested error enums (`Error`, `AttributesError`, `SharesError`)
are flattened into one inductive; constructors the claims never distinguish
(decoding failures bubbled up from the external multicodec / multiutil /
multitrait crates) are collapsed into `decodeFailed`, and detail strings the
code only carries for display are dropped except for
`shareCombineFailed`. -/

inductive Err : Type where
  /-- `Error::MissingSigil` -/
  | missingSigil : Err
  /-- `Error::DuplicateAttribute(u8)` -/
  | duplicateAttribute : Nat → Err
  /-- `Error::UnsupportedAlgorithm(String)` (detail string dropped) -/
  | unsupportedAlgorithm : Err
  /-- `AttributesError::UnsupportedCodec(Codec)` -/
  | unsupportedCodec : Err
  /-- `AttributesError::MissingSignature` -/
  | missingSignature : Err
  /-- `AttributesError::MissingPayloadEncoding` -/
  | missingPayloadEncoding : Err
  /-- `AttributesError::MissingThreshold` -/
  | missingThreshold : Err
  /-- `AttributesError::MissingLimit` -/
  | missingLimit : Err
  /-- `AttributesError::MissingIdentifier` -/
  | missingIdentifier : Err
  /-- `AttributesError::MissingThresholdData` -/
  | missingThresholdData : Err
  /-- `AttributesError::InvalidAttributeValue(u8)` -/
  | invalidAttributeValue : Nat → Err
  /-- `SharesError::InvalidSchemeTypeId(u8)` -/
  | invalidSchemeTypeId : Nat → Err
  /-- `SharesError::NotASignatureShare` -/
  | notASignatureShare : Err
  /-- `SharesError::IsASignatureShare` -/
  | isASignatureShare : Err
  /-- `SharesError::ShareTypeMismatch` -/
  | shareTypeMismatch : Err
  /-- `SharesError::NotEnoughShares` -/
  | notEnoughShares : Err
  /-- `SharesError::ShareCombineFailed(String)` -/
  | shareCombineFailed : String → Err
  /-- any decoding error bubbled up from the external multiformats crates -/
  | decodeFailed : Err
deriving DecidableEq

/-! ## The Multisig value and its codec (`src/ms.rs`) -/

/-- `pub struct Multisig { codec, message, attributes }`; equality is
structural (`derive(PartialEq)`). -/
structure Multisig : Type where
  codec : Nat
  message : List Nat
  attributes : SMap (List Nat)
deriving DecidableEq

/-- `Null::null()` = `Multisig::default()`: identity codec, empty message,
empty attribute map. -/
def Multisig.null : Multisig := ⟨Codec.identity, [], []⟩

/-- Attribute-map well-formedness guaranteed by `BTreeMap<AttrId, Vec<u8>>`:
strictly ascending keys, every key a registered `AttrId` code. -/
def AttrsWf (a : SMap (List Nat)) : Prop :=
  SMap.Wf a ∧ ∀ k ∈ SMap.keys a, AttrId.valid k

instance (a : SMap (List Nat)) : Decidable (AttrsWf a) := by
  unfold AttrsWf
  infer_instance

/-- One encoded attribute entry: `AttrId` code byte (via `(*id).into()`,
a varint of the code) followed by the value as varbytes (`src/ms.rs`
lines 92–95). -/
def encAttrEntry (p : Nat × List Nat) : List Nat :=
  encVaruint p.1 ++ encVarbytes p.2

/-- The encoded attribute section: entries in map (ascending-key) order. -/
def encAttrs (a : SMap (List Nat)) : List Nat :=
  (a.map encAttrEntry).flatten

/-- `impl Into<Vec<u8>> for Multisig` (`src/ms.rs` lines 80–98): sigil,
signature codec, message varbytes, attribute count, attribute entries. -/
def Multisig.encode (m : Multisig) : List Nat :=
  encVaruint Codec.multisig ++ encVaruint m.codec ++ encVarbytes m.message
    ++ encVaruint m.attributes.length ++ encAttrs m.attributes

/-- The attribute-decoding loop of `TryDecodeFrom for Multisig`
(`src/ms.rs` lines 128–140): read `AttrId`, read varbytes, insert; a
repeated key aborts with `DuplicateAttribute(code)`. -/
def Multisig.decodeAttrs :
    Nat → SMap (List Nat) → List Nat → Except Err (SMap (List Nat) × List Nat)
  | 0, acc, r => .ok (acc, r)
  | Nat.succ k, acc, r =>
    match decVaruint r with
    | none => .error .decodeFailed
    | some (c, r1) =>
      if AttrId.valid c then
        match decVarbytes r1 with
        | none => .error .decodeFailed
        | some (v, r2) =>
          if (SMap.find? c acc).isSome then .error (.duplicateAttribute c)
          else Multisig.decodeAttrs k (SMap.ins c v acc) r2
      else .error (.invalidAttributeValue c)

/-- `impl TryDecodeFrom for Multisig` (`src/ms.rs` lines 109–151): decode
sigil (checked against `SIGIL`), signature codec, message, attribute count,
then the attribute entries; returns the value plus the unconsumed
remainder. -/
def Multisig.decode (l : List Nat) : Except Err (Multisig × List Nat) :=
  match decCodec l with
  | none => .error .decodeFailed
  | some (sigil, r0) =>
    if sigil = Codec.multisig then
      match decCodec r0 with
      | none => .error .decodeFailed
      | some (codec, r1) =>
        match decVarbytes r1 with
        | none => .error .decodeFailed
        | some (msg, r2) =>
          match decVaruint r2 with
          | none => .error .decodeFailed
          | some (n, r3) =>
            match n with
            | 0 => .ok (⟨codec, msg, []⟩, r3)
            | Nat.succ k =>
              match Multisig.decodeAttrs (k + 1) [] r3 with
              | .error e => .error e
              | .ok (attrs, r4) => .ok (⟨codec, msg, attrs⟩, r4)
    else .error .missingSigil

/-! ## Decoding-loop lemmas -/

theorem SMap.find?_foldl_mono {α : Type} (k : Nat) (es : List (Nat × α))
    (acc : SMap α) (h : (SMap.find? k acc).isSome) :
    (SMap.find? k (es.foldl (fun a p => SMap.ins p.1 p.2 a) acc)).isSome := by
  induction es generalizing acc with
  | nil => exact h
  | cons e es ih =>
    simp only [List.foldl_cons]
    apply ih
    rw [SMap.find?_ins]
    by_cases hk : k = e.1 <;> simp [hk, h]

theorem SMap.find?_foldl_mem {α : Type} (k : Nat) (es : List (Nat × α))
    (acc : SMap α) (h : k ∈ es.map Prod.fst) :
    (SMap.find? k (es.foldl (fun a p => SMap.ins p.1 p.2 a) acc)).isSome := by
  induction es generalizing acc with
  | nil => simp at h
  | cons e es ih =>
    simp only [List.map_cons, List.mem_cons] at h
    simp only [List.foldl_cons]
    rcases h with h | h
    · apply SMap.find?_foldl_mono
      rw [SMap.find?_ins]
      simp [h]
    · exact ih _ h

theorem SMap.foldl_ins_sorted {α : Type} (es : List (Nat × α)) (acc : SMap α)
    (h : SMap.Wf (acc ++ es)) :
    es.foldl (fun a p => SMap.ins p.1 p.2 a) acc = acc ++ es := by
  induction es generalizing acc with
  | nil => simp
  | cons e es ih =>
    simp only [List.foldl_cons]
    have hlt : ∀ p ∈ acc, p.1 < e.1 := by
      intro p hp
      have := (List.pairwise_append.mp h).2.2 p hp e (List.mem_cons_self _ _)
      exact this
    rw [SMap.ins_append e.1 e.2 acc hlt]
    have h' : SMap.Wf ((acc ++ [e]) ++ es) := by
      simpa [List.append_assoc] using h
    rw [ih (acc ++ [e]) h']
    simp

theorem nodup_keys_of_wf {α : Type} (m : SMap α) (h : SMap.Wf m) :
    (m.map Prod.fst).Nodup := by
  have hp : List.Pairwise (· < ·) (m.map Prod.fst) := by
    rw [List.pairwise_map]
    exact h
  exact hp.imp Nat.ne_of_lt

theorem encAttrs_cons (p : Nat × List Nat) (l : SMap (List Nat)) :
    encAttrs (p :: l) = encAttrEntry p ++ encAttrs l := by
  simp [encAttrs]

theorem encAttrs_append (l1 l2 : SMap (List Nat)) :
    encAttrs (l1 ++ l2) = encAttrs l1 ++ encAttrs l2 := by
  simp [encAttrs]

/-- Running the attribute-decoding loop over a block of well-formed, fresh,
duplicate-free encoded entries consumes them, folding them into the
accumulator by insertion. -/
theorem Multisig.decodeAttrs_eat (es : SMap (List Nat)) (m : Nat)
    (acc : SMap (List Nat)) (rest : List Nat)
    (hval : ∀ p ∈ es, p.1 < 7)
    (hfresh : ∀ p ∈ es, SMap.find? p.1 acc = none)
    (hnodup : (es.map Prod.fst).Nodup) :
    Multisig.decodeAttrs (es.length + m) acc (encAttrs es ++ rest)
      = Multisig.decodeAttrs m
          (es.foldl (fun a p => SMap.ins p.1 p.2 a) acc) rest := by
  induction es generalizing acc with
  | nil => simp [encAttrs]
  | cons e es ih =>
    obtain ⟨c, v⟩ := e
    have hlen : (es.length + 1) + m = (es.length + m) + 1 := by omega
    simp only [List.length_cons, hlen, encAttrs_cons, List.append_assoc]
    have hc7 : c < 7 := hval (c, v) (List.mem_cons_self _ _)
    have hcfresh : SMap.find? c acc = none := hfresh (c, v) (List.mem_cons_self _ _)
    simp only [Multisig.decodeAttrs, encAttrEntry, List.append_assoc,
      decVaruint_encVaruint]
    rw [if_pos (show AttrId.valid c from hc7)]
    rw [decVarbytes_encVarbytes]
    rw [hcfresh]
    simp only [Option.isSome_none, Bool.false_eq_true, if_false, List.foldl_cons]
    apply ih
    · intro p hp
      exact hval p (List.mem_cons_of_mem _ hp)
    · intro p hp
      rw [SMap.find?_ins]
      have hne : p.1 ≠ c := by
        simp only [List.map_cons, List.nodup_cons] at hnodup
        intro hEq
        exact hnodup.1 (hEq ▸ List.mem_map_of_mem Prod.fst hp)
      rw [if_neg hne]
      exact hfresh p (List.mem_cons_of_mem _ hp)
    · simp only [List.map_cons, List.nodup_cons] at hnodup
      exact hnodup.2

/-- C1: for every Multisig value (any registered codec, any message bytes,
any attribute map), decoding the byte sequence produced by encoding it
yields a structurally equal value, with the whole buffer consumed. -/
theorem multisig_decode_encode_roundtrip (m : Multisig)
    (hcodec : Codec.isValid m.codec = true)
    (hwf : AttrsWf m.attributes) :
    Multisig.decode (Multisig.encode m) = .ok (m, []) := by
  obtain ⟨codec, msg, attrs⟩ := m
  obtain ⟨hwf1, hwf2⟩ := hwf
  cases attrs with
  | nil =>
    simp only [Multisig.encode, encAttrs, List.map_nil, List.flatten_nil,
      List.append_nil, List.append_assoc, List.length_nil]
    have h1 := decCodec_encVaruint Codec.multisig
      (encVaruint codec ++ (encVarbytes msg ++ encVaruint 0)) (by decide)
    have h2 := decCodec_encVaruint codec (encVarbytes msg ++ encVaruint 0) hcodec
    have h3 := decVarbytes_encVarbytes msg (encVaruint 0)
    have h4 := decVaruint_encVaruint 0 []
    rw [List.append_nil] at h4
    simp [Multisig.decode, h1, h2, h3, h4]
  | cons p tl =>
    have hval : ∀ q ∈ (p :: tl), q.1 < 7 := by
      intro q hq
      have hq' : q.1 ∈ SMap.keys (p :: tl) := List.mem_map_of_mem Prod.fst hq
      exact hwf2 q.1 hq'
    have hfresh : ∀ q ∈ (p :: tl), SMap.find? q.1 ([] : SMap (List Nat)) = none :=
      fun q _ => rfl
    have hnodup := nodup_keys_of_wf _ hwf1
    have h5 : Multisig.decodeAttrs (tl.length + 1) [] (encAttrs (p :: tl))
        = .ok (p :: tl, []) := by
      have heat := Multisig.decodeAttrs_eat (p :: tl) 0 [] [] hval hfresh hnodup
      simp only [List.length_cons, Nat.add_zero, List.append_nil] at heat
      rw [heat]
      rw [SMap.foldl_ins_sorted (p :: tl) [] (by simpa using hwf1)]
      simp [Multisig.decodeAttrs]
    simp only [Multisig.encode, List.append_assoc, List.length_cons]
    have h1 := decCodec_encVaruint Codec.multisig
      (encVaruint codec ++ (encVarbytes msg
        ++ (encVaruint (tl.length + 1) ++ encAttrs (p :: tl)))) (by decide)
    have h2 := decCodec_encVaruint codec
      (encVarbytes msg ++ (encVaruint (tl.length + 1) ++ encAttrs (p :: tl))) hcodec
    have h3 := decVarbytes_encVarbytes msg
      (encVaruint (tl.length + 1) ++ encAttrs (p :: tl))
    have h4 := decVaruint_encVaruint (tl.length + 1) (encAttrs (p :: tl))
    simp [Multisig.decode, h1, h2, h3, h4, h5]

/-- Concrete instance used to witness C1. -/
def c1Ms : Multisig :=
  ⟨Codec.eddsaMsig, [1, 2, 3],
    [(AttrId.sigData, [7, 8]), (AttrId.scheme, [2])]⟩

/-- Witness for C1: the hypotheses hold and the round trip computes on a
concrete value. -/
theorem multisig_decode_encode_roundtrip_witness :
    Codec.isValid c1Ms.codec = true ∧ AttrsWf c1Ms.attributes ∧
      Multisig.decode (Multisig.encode c1Ms) = .ok (c1Ms, []) :=
  ⟨by decide, by decide,
    multisig_decode_encode_roundtrip c1Ms (by decide) (by decide)⟩

/-! ## Canonical-form lemmas (C2) -/

theorem SMap.ins_comm {α : Type} (k1 k2 : Nat) (v1 v2 : α) (h : k1 ≠ k2)
    (m : SMap α) :
    SMap.ins k2 v2 (SMap.ins k1 v1 m) = SMap.ins k1 v1 (SMap.ins k2 v2 m) := by
  induction m with
  | nil =>
    simp only [SMap.ins]
    split_ifs <;> first | rfl | omega
  | cons p t ih =>
    obtain ⟨k0, v0⟩ := p
    simp only [SMap.ins]
    split_ifs <;> simp only [SMap.ins] <;> (try split_ifs) <;>
      first | rfl | omega | (rw [ih])

theorem SMap.foldl_ins_wf {α : Type} (es : List (Nat × α)) (acc : SMap α)
    (h : SMap.Wf acc) :
    SMap.Wf (es.foldl (fun a p => SMap.ins p.1 p.2 a) acc) := by
  induction es generalizing acc with
  | nil => exact h
  | cons e es ih =>
    simp only [List.foldl_cons]
    exact ih _ (SMap.ins_wf e.1 e.2 acc h)

/-- Building an attribute map by repeated `BTreeMap::insert` from a list of
(code, value) pairs, in list order — the decoding loop and every builder
path construct `Attributes` this way. -/
def buildAttrs (l : List (Nat × List Nat)) : SMap (List Nat) :=
  l.foldl (fun a p => SMap.ins p.1 p.2 a) []

/-- C2: the encoded byte sequence lists attribute entries in ascending
AttrId-code order (the built map's keys are strictly ascending and `encode`
writes them in that order), and two Multisigs whose attribute maps hold the
same (code, value) pairs encode identically regardless of insertion
order. -/
theorem multisig_encode_canonical_order (codec : Nat) (msg : List Nat)
    (l1 l2 : List (Nat × List Nat)) (hperm : l1.Perm l2)
    (hnodup : (l1.map Prod.fst).Nodup) :
    List.Pairwise (· < ·) (SMap.keys (buildAttrs l1)) ∧
      Multisig.encode ⟨codec, msg, buildAttrs l1⟩
        = Multisig.encode ⟨codec, msg, buildAttrs l2⟩ := by
  have hbuild : buildAttrs l1 = buildAttrs l2 := by
    unfold buildAttrs
    refine hperm.foldl_eq' ?_ []
    intro x hx y hy z
    by_cases hxy : x = y
    · subst hxy
      rfl
    · have hk : x.1 ≠ y.1 := by
        intro hEq
        exact hxy (List.inj_on_of_nodup_map hnodup hx hy hEq)
      exact SMap.ins_comm x.1 y.1 x.2 y.2 hk z
  constructor
  · have hw : SMap.Wf (buildAttrs l1) :=
      SMap.foldl_ins_wf l1 [] (by simp [SMap.Wf])
    simpa [SMap.keys, List.pairwise_map] using hw
  · rw [hbuild]

/-- Witness for C2: two insertion orders of the same pairs produce the same
bytes, with sorted keys. -/
theorem multisig_encode_canonical_order_witness :
    ([((2 : Nat), [9, 9]), (0, [7])].Perm [((0 : Nat), [7]), (2, [9, 9])]) ∧
      (([((2 : Nat), [9, 9]), (0, [7])].map Prod.fst).Nodup) ∧
      (List.Pairwise (· < ·) (SMap.keys (buildAttrs [(2, [9, 9]), (0, [7])])) ∧
        Multisig.encode ⟨Codec.eddsaMsig, [], buildAttrs [(2, [9, 9]), (0, [7])]⟩
          = Multisig.encode ⟨Codec.eddsaMsig, [], buildAttrs [(0, [7]), (2, [9, 9])]⟩) :=
  ⟨by decide, by decide,
    multisig_encode_canonical_order Codec.eddsaMsig []
      [(2, [9, 9]), (0, [7])] [(0, [7]), (2, [9, 9])] (by decide) (by decide)⟩

deriving instance DecidableEq for Except

/-- C6: a buffer whose attribute section repeats an AttrId code fails to
decode with `DuplicateAttribute` carrying that code (the first repeated
code), and no partial value is returned — `decode` yields only the error.
`es1` are the entries before the first repeat `(c, v)`; `es2` is the rest
of the section. -/
theorem multisig_decode_duplicate_attribute (codec : Nat) (msg : List Nat)
    (es1 : SMap (List Nat)) (c : Nat) (v : List Nat) (es2 : SMap (List Nat))
    (hcodec : Codec.isValid codec = true)
    (hval : ∀ p ∈ es1, p.1 < 7) (hc7 : c < 7)
    (hnodup : (es1.map Prod.fst).Nodup)
    (hmem : c ∈ es1.map Prod.fst) :
    Multisig.decode (encVaruint Codec.multisig ++ encVaruint codec
        ++ encVarbytes msg ++ encVaruint (es1.length + 1 + es2.length)
        ++ encAttrs (es1 ++ (c, v) :: es2))
      = .error (.duplicateAttribute c) := by
  have hN : es1.length + 1 + es2.length = (es1.length + es2.length) + 1 := by
    omega
  simp only [hN, List.append_assoc]
  have h1 := decCodec_encVaruint Codec.multisig
    (encVaruint codec ++ (encVarbytes msg
      ++ (encVaruint ((es1.length + es2.length) + 1)
        ++ encAttrs (es1 ++ (c, v) :: es2)))) (by decide)
  have h2 := decCodec_encVaruint codec
    (encVarbytes msg ++ (encVaruint ((es1.length + es2.length) + 1)
      ++ encAttrs (es1 ++ (c, v) :: es2))) hcodec
  have h3 := decVarbytes_encVarbytes msg
    (encVaruint ((es1.length + es2.length) + 1) ++ encAttrs (es1 ++ (c, v) :: es2))
  have h4 := decVaruint_encVaruint ((es1.length + es2.length) + 1)
    (encAttrs (es1 ++ (c, v) :: es2))
  have h5 : Multisig.decodeAttrs ((es1.length + es2.length) + 1) []
      (encAttrs (es1 ++ (c, v) :: es2)) = .error (.duplicateAttribute c) := by
    rw [encAttrs_append]
    have hM : (es1.length + es2.length) + 1 = es1.length + (es2.length + 1) := by
      omega
    rw [hM]
    rw [Multisig.decodeAttrs_eat es1 (es2.length + 1) []
      (encAttrs ((c, v) :: es2)) hval (fun q _ => rfl) hnodup]
    rw [encAttrs_cons]
    have hsome := SMap.find?_foldl_mem c es1 [] hmem
    simp only [Multisig.decodeAttrs, encAttrEntry, List.append_assoc,
      decVaruint_encVaruint]
    rw [if_pos (show AttrId.valid c from hc7)]
    rw [decVarbytes_encVarbytes]
    rw [hsome]
    simp
  simp [Multisig.decode, h1, h2, h3, h4, h5]

/-- Witness for C6: a concrete buffer whose attribute section carries two
entries for code 0 is rejected with `DuplicateAttribute 0`. -/
theorem multisig_decode_duplicate_attribute_witness :
    Codec.isValid Codec.eddsaMsig = true ∧
      Multisig.decode (encVaruint Codec.multisig ++ encVaruint Codec.eddsaMsig
          ++ encVarbytes [5] ++ encVaruint (([((0 : Nat), [1, 2]), (3, [2])]).length + 1 + 0)
          ++ encAttrs ([((0 : Nat), [1, 2]), (3, [2])] ++ (0, [9]) :: []))
        = .error (.duplicateAttribute 0) :=
  ⟨by decide,
    multisig_decode_duplicate_attribute Codec.eddsaMsig [5]
      [(0, [1, 2]), (3, [2])] 0 [9] [] (by decide) (by decide) (by decide)
      (by decide) (by decide)⟩

/-- C7: the null Multisig (identity algorithm id, empty message, zero
attributes) encodes to exactly the sigil bytes followed by `0x00 0x00 0x00`,
and that byte sequence decodes back to the null value. -/
theorem multisig_null_fixed_point :
    Multisig.encode Multisig.null = encVaruint Codec.multisig ++ [0, 0, 0] ∧
      Multisig.decode (encVaruint Codec.multisig ++ [0, 0, 0])
        = .ok (Multisig.null, []) := by
  constructor
  · decide
  · decide

/-! ## BLS12-381 threshold view (`src/sig_views/bls12381.rs`) -/

/-- `SchemeTypeId`: the BLS signing scheme variant (codes 0, 1, 2). -/
inductive SchemeTypeId : Type where
  | basic : SchemeTypeId
  | messageAugmentation : SchemeTypeId
  | proofOfPossession : SchemeTypeId
deriving DecidableEq

/-- `SchemeTypeId::code()` / `Into<u8>`. -/
def SchemeTypeId.code : SchemeTypeId → Nat
  | .basic => 0
  | .messageAugmentation => 1
  | .proofOfPossession => 2

/-- `SchemeTypeId::try_from(u8)`. -/
def SchemeTypeId.ofCode (c : Nat) : Option SchemeTypeId :=
  if c = 0 then some .basic
  else if c = 1 then some .messageAugmentation
  else if c = 2 then some .proofOfPossession
  else none

/-- `SchemeTypeId::try_from(&[u8])`: one byte, then `try_from(u8)`; an
unknown code fails with `InvalidSchemeTypeId`. -/
def SchemeTypeId.fromBytes (b : List Nat) : Except Err SchemeTypeId :=
  match b with
  | [] => .error .decodeFailed
  | c :: _ =>
    match SchemeTypeId.ofCode c with
    | some s => .ok s
    | none => .error (.invalidSchemeTypeId c)

theorem SchemeTypeId.ofCode_code (s : SchemeTypeId) :
    SchemeTypeId.ofCode s.code = some s := by
  cases s <;> rfl

/-- `SigShare(identifier, threshold, limit, scheme, share bytes)`. -/
structure SigShare : Type where
  ident : Nat
  threshold : Nat
  limit : Nat
  scheme : SchemeTypeId
  value : List Nat
deriving DecidableEq

/-- `Into<Vec<u8>> for SigShare` (lines 175–190): varuint identifier,
varuint threshold, varuint limit, scheme code byte, varbytes share data. -/
def SigShare.enc (s : SigShare) : List Nat :=
  encVaruint s.ident ++ encVaruint s.threshold ++ encVaruint s.limit
    ++ encVaruint s.scheme.code ++ encVarbytes s.value

/-- `TryDecodeFrom for SigShare` (lines 201–226); the identifier is a
`Varuint<u8>`, so values ≥ 256 are a decode error. -/
def SigShare.dec (l : List Nat) : Except Err (SigShare × List Nat) :=
  match decVaruint l with
  | none => .error .decodeFailed
  | some (id, r1) =>
    if id < 256 then
      match decVaruint r1 with
      | none => .error .decodeFailed
      | some (t, r2) =>
        match decVaruint r2 with
        | none => .error .decodeFailed
        | some (n, r3) =>
          match r3 with
          | [] => .error .decodeFailed
          | c :: r4 =>
            match SchemeTypeId.ofCode c with
            | none => .error (.invalidSchemeTypeId c)
            | some sch =>
              match decVarbytes r4 with
              | none => .error .decodeFailed
              | some (v, r5) => .ok (⟨id, t, n, sch, v⟩, r5)
    else .error .decodeFailed

theorem encVaruint_small (n : Nat) (h : n < 128) : encVaruint n = [n] := by
  cases n with
  | zero => rfl
  | succ m => simp [encVaruint, encVA, h]

theorem SigShare.dec_enc_share (s : SigShare) (rest : List Nat) (h : s.ident < 256) :
    SigShare.dec (SigShare.enc s ++ rest) = .ok (s, rest) := by
  obtain ⟨id, t, n, sch, v⟩ := s
  have hsch : encVaruint sch.code = [sch.code] :=
    encVaruint_small _ (by cases sch <;> decide)
  simp only [SigShare.enc, hsch, List.append_assoc, List.cons_append,
    List.nil_append]
  simp only [SigShare.dec, decVaruint_encVaruint]
  rw [if_pos h]
  simp only [decVaruint_encVaruint, SchemeTypeId.ofCode_code,
    decVarbytes_encVarbytes]

/-- Serialized `ThresholdData` (lines 231–242): share count, then each
share in ascending identifier order (map values in order). -/
def ThresholdData.enc (td : SMap SigShare) : List Nat :=
  encVaruint td.length ++ (td.map (fun p => SigShare.enc p.2)).flatten

/-- The share-reading loop of `TryDecodeFrom for ThresholdData`
(lines 262–271): decode each share and insert it keyed by its identifier —
no duplicate check, a repeated identifier overwrites. -/
def ThresholdData.decLoop :
    Nat → SMap SigShare → List Nat → Except Err (SMap SigShare × List Nat)
  | 0, acc, r => .ok (acc, r)
  | Nat.succ k, acc, r =>
    match SigShare.dec r with
    | .error e => .error e
    | .ok (sh, r1) => ThresholdData.decLoop k (SMap.ins sh.ident sh acc) r1

/-- `TryDecodeFrom for ThresholdData` (lines 253–276). -/
def ThresholdData.dec (l : List Nat) : Except Err (SMap SigShare × List Nat) :=
  match decVaruint l with
  | none => .error .decodeFailed
  | some (n, r) =>
    match n with
    | 0 => .ok ([], r)
    | Nat.succ k => ThresholdData.decLoop (k + 1) [] r

/-- The `BTreeMap<u8, SigShare>` invariant: sorted, each entry keyed by its
share's identifier, identifiers fit in a byte. -/
def TDWf (td : SMap SigShare) : Prop :=
  SMap.Wf td ∧ ∀ p ∈ td, p.1 = p.2.ident ∧ p.2.ident < 256

instance (td : SMap SigShare) : Decidable (TDWf td) := by
  unfold TDWf
  infer_instance

theorem ThresholdData.decLoop_eat (es : List SigShare) (m : Nat)
    (acc : SMap SigShare) (rest : List Nat)
    (h256 : ∀ s ∈ es, s.ident < 256) :
    ThresholdData.decLoop (es.length + m) acc
        ((es.map SigShare.enc).flatten ++ rest)
      = ThresholdData.decLoop m
          (es.foldl (fun a s => SMap.ins s.ident s a) acc) rest := by
  induction es generalizing acc with
  | nil => simp
  | cons e es ih =>
    have hlen : (es.length + 1) + m = (es.length + m) + 1 := by omega
    simp only [List.length_cons, hlen, List.map_cons, List.flatten_cons,
      List.append_assoc]
    simp only [ThresholdData.decLoop]
    rw [SigShare.dec_enc_share e _ (h256 e (List.mem_cons_self _ _))]
    simp only [List.foldl_cons]
    exact ih _ (fun s hs => h256 s (List.mem_cons_of_mem _ hs))

theorem ThresholdData.dec_enc_tdata (td : SMap SigShare) (rest : List Nat)
    (h : TDWf td) :
    ThresholdData.dec (ThresholdData.enc td ++ rest) = .ok (td, rest) := by
  obtain ⟨hwf, hkeys⟩ := h
  cases td with
  | nil => simp [ThresholdData.enc, ThresholdData.dec, decVaruint_encVaruint]
  | cons p tl =>
    simp only [ThresholdData.enc, List.length_cons, List.append_assoc]
    simp only [ThresholdData.dec, decVaruint_encVaruint]
    have hmap : ((p :: tl).map (fun q => SigShare.enc q.2))
        = ((p :: tl).map Prod.snd).map SigShare.enc := by
      simp
    rw [hmap]
    have h256 : ∀ s ∈ (p :: tl).map Prod.snd, s.ident < 256 := by
      intro s hs
      obtain ⟨q, hq, hqe⟩ := List.mem_map.mp hs
      have := (hkeys q hq).2
      rw [hqe] at this
      exact this
    have heat := ThresholdData.decLoop_eat ((p :: tl).map Prod.snd) 0 [] rest h256
    simp only [List.length_map, List.length_cons, Nat.add_zero] at heat
    rw [heat]
    have hfold : ((p :: tl).map Prod.snd).foldl
        (fun a s => SMap.ins s.ident s a) []
        = (p :: tl).foldl (fun a q => SMap.ins q.1 q.2 a) [] := by
      rw [List.foldl_map]
      apply List.foldl_ext
      intro a q hq
      rw [(hkeys q hq).1]
    rw [hfold]
    rw [SMap.foldl_ins_sorted (p :: tl) [] (by simpa using hwf)]
    simp [ThresholdData.decLoop]

/-! ## View accessors (`ThresholdAttrView` / `AttrView` / `SigDataView`
implementations for the BLS view, `src/sig_views/bls12381.rs`) -/

/-- `payload_encoding()` (lines 293–301): read the `PayloadEncoding`
attribute and decode it as a codec. -/
def Multisig.payload_encoding (ms : Multisig) : Except Err Nat :=
  match SMap.find? AttrId.payloadEncoding ms.attributes with
  | none => .error .missingPayloadEncoding
  | some v =>
    match decVaruint v with
    | none => .error .decodeFailed
    | some (c, _) => if Codec.isValid c then .ok c else .error .decodeFailed

/-- `sig_bytes()` (lines 307–314). -/
def Multisig.sig_bytes (ms : Multisig) : Except Err (List Nat) :=
  match SMap.find? AttrId.sigData ms.attributes with
  | none => .error .missingSignature
  | some v => .ok v

/-- `threshold()` (lines 390–397): `Varuint<usize>` from the `Threshold`
attribute. -/
def Multisig.threshold (ms : Multisig) : Except Err Nat :=
  match SMap.find? AttrId.threshold ms.attributes with
  | none => .error .missingThreshold
  | some v =>
    match decVaruint v with
    | none => .error .decodeFailed
    | some (n, _) => .ok n

/-- `limit()` (lines 399–406). -/
def Multisig.limit (ms : Multisig) : Except Err Nat :=
  match SMap.find? AttrId.limit ms.attributes with
  | none => .error .missingLimit
  | some v =>
    match decVaruint v with
    | none => .error .decodeFailed
    | some (n, _) => .ok n

/-- `identifier()` (lines 408–420): only share-variant codecs carry an
identifier; other codecs fail with `NotASignatureShare`.  The value is a
`Varuint<u8>`. -/
def Multisig.identifier (ms : Multisig) : Except Err Nat :=
  if ms.codec = Codec.bls12381G1SigShare ∨ ms.codec = Codec.bls12381G2SigShare then
    match SMap.find? AttrId.shareIdentifier ms.attributes with
    | none => .error .missingIdentifier
    | some v =>
      match decVaruint v with
      | none => .error .decodeFailed
      | some (n, _) => if n < 256 then .ok n else .error .decodeFailed
  else .error .notASignatureShare

/-- `threshold_data()` (lines 422–429). -/
def Multisig.threshold_data (ms : Multisig) : Except Err (List Nat) :=
  match SMap.find? AttrId.thresholdData ms.attributes with
  | none => .error .missingThresholdData
  | some v => .ok v

/-- Is the codec one of the four BLS12-381 Multisig variants? -/
def bls4 (c : Nat) : Bool :=
  c = Codec.bls12381G1Sig ∨ c = Codec.bls12381G2Sig
    ∨ c = Codec.bls12381G1SigShare ∨ c = Codec.bls12381G2SigShare

/-- Modelled from the spec: the `SigViews` implementation for `Multisig`
(the view-dispatch layer which `src/sig_views/bls12381.rs` reaches through
`threshold_attr_view()`) is not present under `src/`; §4.3 specifies that
the threshold-attribute view is served exactly for the BLS12-381 variants
and that other codecs fail with `UnsupportedCodec`. -/
def thresholdAttrViewOk (c : Nat) : Except Err Unit :=
  if bls4 c then .ok () else .error .unsupportedCodec

/-- Modelled from the spec: the attribute-view dispatch (`attr_view()`),
served for the three algorithm families, `UnsupportedCodec` otherwise. -/
def attrViewOk (c : Nat) : Except Err Unit :=
  if bls4 c ∨ c = Codec.eddsaMsig ∨ c = Codec.es256kMsig then .ok ()
  else .error .unsupportedCodec

/-- Modelled from the spec: the signature-data-view dispatch
(`sig_data_view()`), same families as `attr_view()`. -/
def sigDataViewOk (c : Nat) : Except Err Unit :=
  if bls4 c ∨ c = Codec.eddsaMsig ∨ c = Codec.es256kMsig then .ok ()
  else .error .unsupportedCodec

/-- The `ThresholdData` recovery used by `shares`/`add_share`/`combine`
(e.g. lines 573–580): an absent attribute or a parse failure both give the
empty map (`ThresholdData::try_from(b).unwrap_or_default()`). -/
def Multisig.tdata (ms : Multisig) : SMap SigShare :=
  match Multisig.threshold_data ms with
  | .ok b =>
    match ThresholdData.dec b with
    | .ok (td, _) => td
    | .error _ => []
  | .error _ => []

/-- `add_share(share)` (`src/sig_views/bls12381.rs` lines 487–570).  The
receiver `ms` is the aggregate; `share` is the incoming Multisig.  Checks
the aggregate's codec, extracts the share's threshold attributes and
signature bytes, inserts the share into a copy of the aggregate's
`ThresholdData` keyed by identifier, and rebuilds a new aggregate through
the `Builder` (threshold, limit, threshold data, and payload encoding when
available). -/
def Multisig.add_share (ms share : Multisig) : Except Err Multisig :=
  if ms.codec = Codec.bls12381G1SigShare ∨ ms.codec = Codec.bls12381G2SigShare then
    .error .isASignatureShare
  else if ms.codec = Codec.bls12381G1Sig ∨ ms.codec = Codec.bls12381G2Sig then
    match thresholdAttrViewOk share.codec with
    | .error e => .error e
    | .ok _ =>
      match Multisig.threshold share with
      | .error e => .error e
      | .ok t =>
        match Multisig.limit share with
        | .error e => .error e
        | .ok n =>
          match Multisig.identifier share with
          | .error e => .error e
          | .ok id =>
            match Multisig.threshold_data share with
            | .error e => .error e
            | .ok tdb =>
              match SchemeTypeId.fromBytes tdb with
              | .error e => .error e
              | .ok sch =>
                match sigDataViewOk share.codec with
                | .error e => .error e
                | .ok _ =>
                  match Multisig.sig_bytes share with
                  | .error e => .error e
                  | .ok sb =>
                    match attrViewOk ms.codec with
                    | .error e => .error e
                    | .ok _ =>
                      let enc0 := (Multisig.payload_encoding ms).toOption
                      match thresholdAttrViewOk ms.codec with
                      | .error e => .error e
                      | .ok _ =>
                        let tdBytes := ThresholdData.enc
                          (SMap.ins id ⟨id, t, n, sch, sb⟩ (Multisig.tdata ms))
                        match attrViewOk ms.codec with
                        | .error e => .error e
                        | .ok _ =>
                          let enc : Option Nat :=
                            match Multisig.payload_encoding ms with
                            | .ok e => some e
                            | .error _ =>
                              match enc0 with
                              | some e => some e
                              | none => none
                          match thresholdAttrViewOk share.codec with
                          | .error e => .error e
                          | .ok _ =>
                            let t2 := match Multisig.threshold share with
                              | .ok x => x
                              | .error _ => t
                            let n2 := match Multisig.limit share with
                              | .ok x => x
                              | .error _ => n
                            let a3 := SMap.ins AttrId.thresholdData tdBytes
                              (SMap.ins AttrId.limit (encVaruint n2)
                                (SMap.ins AttrId.threshold (encVaruint t2) []))
                            match enc with
                            | some e =>
                              .ok ⟨ms.codec, ms.message,
                                SMap.ins AttrId.payloadEncoding (encVaruint e) a3⟩
                            | none => .ok ⟨ms.codec, ms.message, a3⟩
  else .error .unsupportedAlgorithm

/-- The external `blsful` threshold primitive (`Signature::from_shares` for
each curve group), injected as a parameter: a share is (scheme variant,
identifier, value bytes), a signature is (scheme variant, group-element
bytes). -/
structure ExtCombiner : Type where
  g1 : List (SchemeTypeId × Nat × List Nat) → Except String (SchemeTypeId × List Nat)
  g2 : List (SchemeTypeId × Nat × List Nat) → Except String (SchemeTypeId × List Nat)

/-- `Builder::new_from_bls_signature(..).try_build()` (`src/ms.rs` lines
331–355): the result codec is chosen by signature byte length (48 → G1
combined, 96 → G2 combined, anything else `UnsupportedAlgorithm`), with
`SigData` and `Scheme` attributes. -/
def newFromBlsSignature (sig : SchemeTypeId × List Nat) :
    Except Err (Nat × SMap (List Nat)) :=
  if sig.2.length = 48 then
    .ok (Codec.bls12381G1Msig,
      SMap.ins AttrId.scheme (encVaruint sig.1.code)
        (SMap.ins AttrId.sigData sig.2 []))
  else if sig.2.length = 96 then
    .ok (Codec.bls12381G2Msig,
      SMap.ins AttrId.scheme (encVaruint sig.1.code)
        (SMap.ins AttrId.sigData sig.2 []))
  else .error .unsupportedAlgorithm

/-- The share-conversion loop inside `combine` (lines 593–617 / 633–657):
walk `ThresholdData` in ascending identifier order, record the first
share's `SchemeTypeId` and reject any later share with a different one
(`ShareTypeMismatch`), converting each entry to the external
representation. -/
def convertShares (sti : Option SchemeTypeId) :
    SMap SigShare → Except Err (List (SchemeTypeId × Nat × List Nat))
  | [] => .ok []
  | (id, sh) :: rest =>
    match sti with
    | some s =>
      if s ≠ sh.scheme then .error .shareTypeMismatch
      else
        match convertShares (some s) rest with
        | .ok l => .ok ((sh.scheme, id, sh.value) :: l)
        | .error e => .error e
    | none =>
      match convertShares (some sh.scheme) rest with
      | .ok l => .ok ((sh.scheme, id, sh.value) :: l)
      | .error e => .error e

/-- `combine()` (lines 572–676), parameterised by the external combiner:
recover `ThresholdData`, require at least `threshold` accumulated shares
(else `NotEnoughShares`), convert the shares (scheme-consistency check),
invoke the external primitive (its failure becomes `ShareCombineFailed`),
and wrap the result via the `Builder`, carrying the message forward; the
G1 branch demands a payload encoding (`payload_encoding()?`), the G2
branch takes it only when present (`.ok()`). -/
def Multisig.combine (ext : ExtCombiner) (ms : Multisig) : Except Err Multisig :=
  match thresholdAttrViewOk ms.codec with
  | .error e => .error e
  | .ok _ =>
    match thresholdAttrViewOk ms.codec with
    | .error e => .error e
    | .ok _ =>
      match Multisig.threshold ms with
      | .error e => .error e
      | .ok t =>
        if (Multisig.tdata ms).length < t then .error .notEnoughShares
        else if ms.codec = Codec.bls12381G1Sig then
          match convertShares none (Multisig.tdata ms) with
          | .error e => .error e
          | .ok shs =>
            match ext.g1 shs with
            | .error e => .error (.shareCombineFailed e)
            | .ok sig =>
              match attrViewOk ms.codec with
              | .error e => .error e
              | .ok _ =>
                match Multisig.payload_encoding ms with
                | .error e => .error e
                | .ok enc =>
                  match newFromBlsSignature sig with
                  | .error e => .error e
                  | .ok ca =>
                    .ok ⟨ca.1, ms.message,
                      SMap.ins AttrId.payloadEncoding (encVaruint enc) ca.2⟩
        else if ms.codec = Codec.bls12381G2Sig then
          match convertShares none (Multisig.tdata ms) with
          | .error e => .error e
          | .ok shs =>
            match ext.g2 shs with
            | .error e => .error (.shareCombineFailed e)
            | .ok sig =>
              match attrViewOk ms.codec with
              | .error e => .error e
              | .ok _ =>
                match newFromBlsSignature sig with
                | .error e => .error e
                | .ok ca =>
                  match (Multisig.payload_encoding ms).toOption with
                  | some e =>
                    .ok ⟨ca.1, ms.message,
                      SMap.ins AttrId.payloadEncoding (encVaruint e) ca.2⟩
                  | none => .ok ⟨ca.1, ms.message, ca.2⟩
        else .error .unsupportedAlgorithm

/-! ## Scheme-consistency lemmas for the conversion loop -/

theorem convertShares_some_ok (s : SchemeTypeId) (td : SMap SigShare)
    (h : ∀ p ∈ td, p.2.scheme = s) :
    convertShares (some s) td = .ok (td.map (fun p => (s, p.1, p.2.value))) := by
  induction td with
  | nil => rfl
  | cons p tl ih =>
    obtain ⟨id, sh⟩ := p
    have hs : sh.scheme = s := h (id, sh) (List.mem_cons_self _ _)
    simp only [convertShares]
    rw [if_neg (by simp [hs])]
    rw [ih (fun q hq => h q (List.mem_cons_of_mem _ hq))]
    simp [hs]

theorem convertShares_none_ok (s : SchemeTypeId) (td : SMap SigShare)
    (h : ∀ p ∈ td, p.2.scheme = s) :
    convertShares none td = .ok (td.map (fun p => (s, p.1, p.2.value))) := by
  cases td with
  | nil => rfl
  | cons p tl =>
    obtain ⟨id, sh⟩ := p
    have hs : sh.scheme = s := h (id, sh) (List.mem_cons_self _ _)
    simp only [convertShares]
    rw [convertShares_some_ok sh.scheme tl
      (fun q hq => by rw [h q (List.mem_cons_of_mem _ hq), hs])]
    simp [hs]

theorem convertShares_some_mismatch (s : SchemeTypeId) (td : SMap SigShare)
    (h : ∃ p ∈ td, p.2.scheme ≠ s) :
    convertShares (some s) td = .error .shareTypeMismatch := by
  induction td with
  | nil => simp at h
  | cons p tl ih =>
    obtain ⟨id, sh⟩ := p
    by_cases hs : sh.scheme = s
    · have h' : ∃ q ∈ tl, q.2.scheme ≠ s := by
        obtain ⟨q, hq, hne⟩ := h
        rcases List.mem_cons.mp hq with rfl | hmem
        · exact absurd hs hne
        · exact ⟨q, hmem, hne⟩
      simp only [convertShares]
      rw [if_neg (by simp [hs])]
      rw [ih h']
    · simp only [convertShares]
      rw [if_pos (show s ≠ sh.scheme from fun hEq => hs hEq.symm)]

theorem convertShares_none_mismatch (td : SMap SigShare)
    (h : ∃ p ∈ td, ∃ q ∈ td, p.2.scheme ≠ q.2.scheme) :
    convertShares none td = .error .shareTypeMismatch := by
  cases td with
  | nil => simp at h
  | cons p tl =>
    obtain ⟨id, sh⟩ := p
    have h' : ∃ q ∈ tl, q.2.scheme ≠ sh.scheme := by
      obtain ⟨a, ha, b, hb, hne⟩ := h
      rcases List.mem_cons.mp ha with rfl | hma
      · rcases List.mem_cons.mp hb with rfl | hmb
        · exact absurd rfl hne
        · exact ⟨b, hmb, fun hEq => hne (by rw [hEq])⟩
      · rcases List.mem_cons.mp hb with rfl | hmb
        · exact ⟨a, hma, hne⟩
        · by_cases hasch : a.2.scheme = sh.scheme
          · exact ⟨b, hmb, fun hEq => hne (by rw [hasch, hEq])⟩
          · exact ⟨a, hma, hasch⟩
    simp only [convertShares]
    rw [convertShares_some_mismatch sh.scheme tl h']

/-! ## Helper facts about the accessors -/

theorem Multisig.identifier_ok_facts (ms : Multisig) (i : Nat)
    (h : Multisig.identifier ms = .ok i) :
    (ms.codec = Codec.bls12381G1SigShare
      ∨ ms.codec = Codec.bls12381G2SigShare) ∧ i < 256 := by
  unfold Multisig.identifier at h
  split at h
  case isTrue hcodec =>
    refine ⟨hcodec, ?_⟩
    split at h
    · exact absurd h (by simp)
    · split at h
      · exact absurd h (by simp)
      · split at h
        · cases h
          assumption
        · exact absurd h (by simp)
  case isFalse hcodec => exact absurd h (by simp)

theorem Multisig.payload_encoding_ok_valid (ms : Multisig) (e : Nat)
    (h : Multisig.payload_encoding ms = .ok e) : Codec.isValid e = true := by
  unfold Multisig.payload_encoding at h
  split at h
  · exact absurd h (by simp)
  · split at h
    · exact absurd h (by simp)
    · split at h
      · cases h
        assumption
      · exact absurd h (by simp)

theorem SMap.mem_ins_elim {α : Type} (k : Nat) (v : α) (m : SMap α)
    (p : Nat × α) (h : p ∈ SMap.ins k v m) : p = (k, v) ∨ p ∈ m := by
  induction m with
  | nil =>
    simp only [SMap.ins] at h
    rcases List.mem_cons.mp h with rfl | hmem
    · exact Or.inl rfl
    · simp at hmem
  | cons q t ih =>
    obtain ⟨k0, v0⟩ := q
    simp only [SMap.ins] at h
    split_ifs at h
    · rcases List.mem_cons.mp h with rfl | hmem
      · exact Or.inl rfl
      · exact Or.inr hmem
    · rcases List.mem_cons.mp h with rfl | hmem
      · exact Or.inl rfl
      · exact Or.inr (List.mem_cons_of_mem _ hmem)
    · rcases List.mem_cons.mp h with rfl | hmem
      · exact Or.inr (List.mem_cons_self _ _)
      · rcases ih hmem with h1 | h1
        · exact Or.inl h1
        · exact Or.inr (List.mem_cons_of_mem _ h1)

theorem decVaruint_encVaruint_nil (n : Nat) :
    decVaruint (encVaruint n) = some (n, []) := by
  have := decVaruint_encVaruint n []
  rwa [List.append_nil] at this

theorem Multisig.combine_not_enough (ext : ExtCombiner) (ms : Multisig) (t : Nat)
    (hc : bls4 ms.codec = true)
    (ht : Multisig.threshold ms = .ok t)
    (hlt : (Multisig.tdata ms).length < t) :
    Multisig.combine ext ms = .error .notEnoughShares := by
  simp [Multisig.combine, thresholdAttrViewOk, hc, ht, hlt]

theorem bls4_g1 : bls4 Codec.bls12381G1Sig = true := by decide

theorem bls4_g2 : bls4 Codec.bls12381G2Sig = true := by decide

theorem bls4_g1share : bls4 Codec.bls12381G1SigShare = true := by decide

theorem bls4_g2share : bls4 Codec.bls12381G2SigShare = true := by decide

theorem tavOk_bls (c : Nat) (h : bls4 c = true) :
    thresholdAttrViewOk c = .ok () := by
  simp [thresholdAttrViewOk, h]

theorem avOk_bls (c : Nat) (h : bls4 c = true) : attrViewOk c = .ok () := by
  simp [attrViewOk, h]

theorem sdvOk_bls (c : Nat) (h : bls4 c = true) : sigDataViewOk c = .ok () := by
  simp [sigDataViewOk, h]

/-- Symbolic evaluation of `add_share` on a BLS aggregate and a share whose
threshold attributes all read back successfully: the result keeps the
aggregate's codec and message, carries the share's threshold and limit, the
updated `ThresholdData`, and the aggregate's payload encoding when it has
one (the share's is never consulted). -/
theorem Multisig.add_share_eval (ms s : Multisig) (t n i : Nat)
    (schB sb : List Nat) (sch : SchemeTypeId)
    (hagg : ms.codec = Codec.bls12381G1Sig ∨ ms.codec = Codec.bls12381G2Sig)
    (hst : Multisig.threshold s = .ok t) (hsl : Multisig.limit s = .ok n)
    (hsi : Multisig.identifier s = .ok i)
    (hstd : Multisig.threshold_data s = .ok schB)
    (hsch : SchemeTypeId.fromBytes schB = .ok sch)
    (hsb : Multisig.sig_bytes s = .ok sb) :
    Multisig.add_share ms s = .ok ⟨ms.codec, ms.message,
      match (Multisig.payload_encoding ms).toOption with
      | some e => SMap.ins AttrId.payloadEncoding (encVaruint e)
          (SMap.ins AttrId.thresholdData
            (ThresholdData.enc (SMap.ins i ⟨i, t, n, sch, sb⟩ (Multisig.tdata ms)))
            (SMap.ins AttrId.limit (encVaruint n)
              (SMap.ins AttrId.threshold (encVaruint t) [])))
      | none => SMap.ins AttrId.thresholdData
          (ThresholdData.enc (SMap.ins i ⟨i, t, n, sch, sb⟩ (Multisig.tdata ms)))
          (SMap.ins AttrId.limit (encVaruint n)
            (SMap.ins AttrId.threshold (encVaruint t) []))⟩ := by
  have hfacts := Multisig.identifier_ok_facts s i hsi
  have hshare : bls4 s.codec = true := by
    rcases hfacts.1 with h | h
    · rw [h]
      exact bls4_g1share
    · rw [h]
      exact bls4_g2share
  have htav := tavOk_bls s.codec hshare
  have hsdv := sdvOk_bls s.codec hshare
  have t1 : thresholdAttrViewOk Codec.bls12381G1Sig = .ok () := tavOk_bls _ bls4_g1
  have t2 : thresholdAttrViewOk Codec.bls12381G2Sig = .ok () := tavOk_bls _ bls4_g2
  have a1 : attrViewOk Codec.bls12381G1Sig = .ok () := avOk_bls _ bls4_g1
  have a2 : attrViewOk Codec.bls12381G2Sig = .ok () := avOk_bls _ bls4_g2
  have d1 : ¬ (Codec.bls12381G1Sig = Codec.bls12381G1SigShare
      ∨ Codec.bls12381G1Sig = Codec.bls12381G2SigShare) := by decide
  have d2 : ¬ (Codec.bls12381G2Sig = Codec.bls12381G1SigShare
      ∨ Codec.bls12381G2Sig = Codec.bls12381G2SigShare) := by decide
  rcases hagg with hagg | hagg <;>
    cases hpe : Multisig.payload_encoding ms <;>
      simp [Multisig.add_share, hagg, hst, hsl, hsi, hstd, hsch, hsb, htav,
        hsdv, hpe, t1, t2, a1, a2, d1, d2, Except.toOption]

/-- Symbolic evaluation of the G1 `combine` success path: enough shares, a
consistent scheme, the external primitive succeeds, and a payload encoding
is present. -/
theorem Multisig.combine_g1_ok (ext : ExtCombiner) (ms : Multisig) (t e : Nat)
    (sch s2 : SchemeTypeId) (sigB : List Nat) (ca : Nat × SMap (List Nat))
    (hc : ms.codec = Codec.bls12381G1Sig)
    (ht : Multisig.threshold ms = .ok t)
    (hlen : ¬ (Multisig.tdata ms).length < t)
    (hscheme : ∀ p ∈ Multisig.tdata ms, p.2.scheme = sch)
    (hg1 : ext.g1 ((Multisig.tdata ms).map (fun p => (sch, p.1, p.2.value)))
      = .ok (s2, sigB))
    (henc : Multisig.payload_encoding ms = .ok e)
    (hnf : newFromBlsSignature (s2, sigB) = .ok ca) :
    Multisig.combine ext ms = .ok ⟨ca.1, ms.message,
      SMap.ins AttrId.payloadEncoding (encVaruint e) ca.2⟩ := by
  have hconv := convertShares_none_ok sch (Multisig.tdata ms) hscheme
  have t1 : thresholdAttrViewOk Codec.bls12381G1Sig = .ok () := tavOk_bls _ bls4_g1
  have a1 : attrViewOk Codec.bls12381G1Sig = .ok () := avOk_bls _ bls4_g1
  simp [Multisig.combine, hc, ht, hlen, hconv, hg1, henc, hnf, t1, a1]

/-- Symbolic evaluation of the G1 `combine` path when the aggregate lacks a
payload encoding: everything else succeeds — shares suffice, schemes agree,
the external primitive returns a signature — yet the result is
`MissingPayloadEncoding`. -/
theorem Multisig.combine_g1_missing_pe (ext : ExtCombiner) (ms : Multisig)
    (t : Nat) (sch s2 : SchemeTypeId) (sigB : List Nat)
    (hc : ms.codec = Codec.bls12381G1Sig)
    (ht : Multisig.threshold ms = .ok t)
    (hlen : ¬ (Multisig.tdata ms).length < t)
    (hscheme : ∀ p ∈ Multisig.tdata ms, p.2.scheme = sch)
    (hg1 : ext.g1 ((Multisig.tdata ms).map (fun p => (sch, p.1, p.2.value)))
      = .ok (s2, sigB))
    (hpe : SMap.find? AttrId.payloadEncoding ms.attributes = none) :
    Multisig.combine ext ms = .error .missingPayloadEncoding := by
  have hconv := convertShares_none_ok sch (Multisig.tdata ms) hscheme
  have henc : Multisig.payload_encoding ms = .error .missingPayloadEncoding := by
    simp [Multisig.payload_encoding, hpe]
  have t1 : thresholdAttrViewOk Codec.bls12381G1Sig = .ok () := tavOk_bls _ bls4_g1
  have a1 : attrViewOk Codec.bls12381G1Sig = .ok () := avOk_bls _ bls4_g1
  simp [Multisig.combine, hc, ht, hlen, hconv, hg1, henc, t1, a1]

/-- Symbolic evaluation of the G2 `combine` success path: the payload
encoding is carried over when present and simply omitted when absent. -/
theorem Multisig.combine_g2_ok (ext : ExtCombiner) (ms : Multisig) (t : Nat)
    (sch s2 : SchemeTypeId) (sigB : List Nat) (ca : Nat × SMap (List Nat))
    (hc : ms.codec = Codec.bls12381G2Sig)
    (ht : Multisig.threshold ms = .ok t)
    (hlen : ¬ (Multisig.tdata ms).length < t)
    (hscheme : ∀ p ∈ Multisig.tdata ms, p.2.scheme = sch)
    (hg2 : ext.g2 ((Multisig.tdata ms).map (fun p => (sch, p.1, p.2.value)))
      = .ok (s2, sigB))
    (hnf : newFromBlsSignature (s2, sigB) = .ok ca) :
    Multisig.combine ext ms = .ok ⟨ca.1, ms.message,
      match (Multisig.payload_encoding ms).toOption with
      | some e => SMap.ins AttrId.payloadEncoding (encVaruint e) ca.2
      | none => ca.2⟩ := by
  have hconv := convertShares_none_ok sch (Multisig.tdata ms) hscheme
  have t2 : thresholdAttrViewOk Codec.bls12381G2Sig = .ok () := tavOk_bls _ bls4_g2
  have a2 : attrViewOk Codec.bls12381G2Sig = .ok () := avOk_bls _ bls4_g2
  have d3 : ¬ (Codec.bls12381G2Sig = Codec.bls12381G1Sig) := by decide
  cases hpe : (Multisig.payload_encoding ms).toOption <;>
    simp [Multisig.combine, hc, ht, hlen, hconv, hg2, hnf, t2, a2, d3, hpe]

/-- C3: on a BLS aggregate carrying Threshold = t, (a) `combine()` with
fewer accumulated distinct shares than t fails with `NotEnoughShares`;
(b) once the t-th distinct share is added via `add_share` (a share of the
common scheme carrying the same threshold), `combine()` succeeds — given a
payload encoding on the aggregate and an external combiner that succeeds
with a BLS-sized signature. -/
theorem combine_threshold_gate (ext : ExtCombiner) (ms s : Multisig)
    (t n i e : Nat) (sch s2 : SchemeTypeId) (sigB schB sb : List Nat)
    (hc : ms.codec = Codec.bls12381G1Sig ∨ ms.codec = Codec.bls12381G2Sig)
    (ht : Multisig.threshold ms = .ok t)
    (htd : TDWf (Multisig.tdata ms))
    (henc : Multisig.payload_encoding ms = .ok e)
    (hst : Multisig.threshold s = .ok t)
    (hsl : Multisig.limit s = .ok n)
    (hsi : Multisig.identifier s = .ok i)
    (hsnew : i ∉ SMap.keys (Multisig.tdata ms))
    (hstd : Multisig.threshold_data s = .ok schB)
    (hsch : SchemeTypeId.fromBytes schB = .ok sch)
    (hsb : Multisig.sig_bytes s = .ok sb)
    (hscheme : ∀ p ∈ Multisig.tdata ms, p.2.scheme = sch)
    (hg1 : ∀ x, ext.g1 x = .ok (s2, sigB))
    (hg2 : ∀ x, ext.g2 x = .ok (s2, sigB))
    (hsig : sigB.length = 96) :
    ((Multisig.tdata ms).length < t →
        Multisig.combine ext ms = .error .notEnoughShares) ∧
      ((Multisig.tdata ms).length + 1 = t →
        ∃ ms2, Multisig.add_share ms s = .ok ms2 ∧
          (Multisig.combine ext ms2).isOk = true) := by
  constructor
  · intro hlt
    have hb : bls4 ms.codec = true := by
      rcases hc with h | h
      · rw [h]
        exact bls4_g1
      · rw [h]
        exact bls4_g2
    exact Multisig.combine_not_enough ext ms t hb ht hlt
  · intro hlen
    have hif := Multisig.identifier_ok_facts s i hsi
    have heval := Multisig.add_share_eval ms s t n i schB sb sch hc hst hsl hsi
      hstd hsch hsb
    rw [henc] at heval
    simp only [Except.toOption] at heval
    set td0 : SMap SigShare := Multisig.tdata ms with hX
    have htd2wf : TDWf (SMap.ins i ⟨i, t, n, sch, sb⟩ td0) := by
      constructor
      · exact SMap.ins_wf _ _ _ htd.1
      · intro p hp
        rcases SMap.mem_ins_elim _ _ _ p hp with rfl | hpm
        · exact ⟨rfl, hif.2⟩
        · exact htd.2 p hpm
    have hdec : ThresholdData.dec
        (ThresholdData.enc (SMap.ins i ⟨i, t, n, sch, sb⟩ td0))
        = .ok (SMap.ins i ⟨i, t, n, sch, sb⟩ td0, []) := by
      have := ThresholdData.dec_enc_tdata (SMap.ins i ⟨i, t, n, sch, sb⟩ td0) [] htd2wf
      rwa [List.append_nil] at this
    refine ⟨⟨ms.codec, ms.message,
      SMap.ins AttrId.payloadEncoding (encVaruint e)
        (SMap.ins AttrId.thresholdData
          (ThresholdData.enc (SMap.ins i ⟨i, t, n, sch, sb⟩ td0))
          (SMap.ins AttrId.limit (encVaruint n)
            (SMap.ins AttrId.threshold (encVaruint t) [])))⟩, heval, ?_⟩
    set ms2 : Multisig := ⟨ms.codec, ms.message,
      SMap.ins AttrId.payloadEncoding (encVaruint e)
        (SMap.ins AttrId.thresholdData
          (ThresholdData.enc (SMap.ins i ⟨i, t, n, sch, sb⟩ td0))
          (SMap.ins AttrId.limit (encVaruint n)
            (SMap.ins AttrId.threshold (encVaruint t) [])))⟩ with hms2
    have hvalid := Multisig.payload_encoding_ok_valid ms e henc
    have hth2 : Multisig.threshold ms2 = .ok t := by
      simp [hms2, Multisig.threshold, AttrId.payloadEncoding, AttrId.threshold,
        AttrId.limit, AttrId.thresholdData, SMap.find?_ins, SMap.find?,
        decVaruint_encVaruint_nil]
    have htda : Multisig.tdata ms2 = SMap.ins i ⟨i, t, n, sch, sb⟩ td0 := by
      simp [hms2, Multisig.tdata, Multisig.threshold_data, AttrId.payloadEncoding,
        AttrId.threshold, AttrId.limit, AttrId.thresholdData, SMap.find?_ins,
        SMap.find?, hdec]
    have hpe2 : Multisig.payload_encoding ms2 = .ok e := by
      simp [hms2, Multisig.payload_encoding, AttrId.payloadEncoding,
        AttrId.threshold, AttrId.limit, AttrId.thresholdData, SMap.find?_ins,
        SMap.find?, decVaruint_encVaruint_nil, hvalid]
    have hcodec2 : ms2.codec = ms.codec := by
      rw [hms2]
    have hlen2 : ¬ (Multisig.tdata ms2).length < t := by
      rw [htda, SMap.length_ins_new _ _ _ hsnew]
      omega
    have hsch2 : ∀ p ∈ Multisig.tdata ms2, p.2.scheme = sch := by
      rw [htda]
      intro p hp
      rcases SMap.mem_ins_elim _ _ _ p hp with rfl | hpm
      · rfl
      · exact hscheme p hpm
    have hnf : newFromBlsSignature (s2, sigB) = .ok (Codec.bls12381G2Msig,
        SMap.ins AttrId.scheme (encVaruint s2.code)
          (SMap.ins AttrId.sigData sigB [])) := by
      simp [newFromBlsSignature, hsig]
    rcases hc with hc | hc
    · rw [Multisig.combine_g1_ok ext ms2 t e sch s2 sigB _
        (by rw [hcodec2, hc]) hth2 hlen2 hsch2 (hg1 _) hpe2 hnf]
      rfl
    · rw [Multisig.combine_g2_ok ext ms2 t sch s2 sigB _
        (by rw [hcodec2, hc]) hth2 hlen2 hsch2 (hg2 _) hnf]
      rfl

/-- An external combiner that always succeeds, with BLS-sized outputs. -/
def extOk96 : ExtCombiner :=
  ⟨fun _ => .ok (.basic, List.replicate 96 0),
   fun _ => .ok (.basic, List.replicate 96 0)⟩

/-- Two accumulated shares tagged with different schemes. -/
def c5Td : SMap SigShare :=
  [(1, ⟨1, 3, 4, .basic, [9]⟩), (2, ⟨2, 3, 4, .proofOfPossession, [8]⟩)]

/-- A G2 aggregate holding `c5Td` but with threshold 3 — more than the two
accumulated shares. -/
def c5Agg : Multisig :=
  ⟨Codec.bls12381G2Sig, [],
    [(AttrId.threshold, [3]), (AttrId.thresholdData, ThresholdData.enc c5Td)]⟩

/-- C5 counterexample: this aggregate's ThresholdData does hold two shares
with different SchemeTypeId values, yet `combine()` fails with
`NotEnoughShares`, not `ShareTypeMismatch` — the share-count gate runs
first, refuting the claim as stated. -/
theorem combine_scheme_mismatch_counterexample :
    (∃ p ∈ Multisig.tdata c5Agg, ∃ q ∈ Multisig.tdata c5Agg,
        p.2.scheme ≠ q.2.scheme) ∧
      Multisig.combine extOk96 c5Agg = .error .notEnoughShares ∧
      Multisig.combine extOk96 c5Agg ≠ .error .shareTypeMismatch := by
  decide

/-- C5 (amended): on a BLS aggregate whose accumulated share count passes
the threshold gate, two shares with different SchemeTypeId values make
`combine()` fail with `ShareTypeMismatch`, for EVERY external combiner —
the mismatch is detected while converting the stored shares, before the
external combination primitive is invoked. -/
theorem combine_share_type_mismatch (ext : ExtCombiner) (ms : Multisig)
    (t : Nat)
    (hc : ms.codec = Codec.bls12381G1Sig ∨ ms.codec = Codec.bls12381G2Sig)
    (ht : Multisig.threshold ms = .ok t)
    (hlen : ¬ (Multisig.tdata ms).length < t)
    (hmix : ∃ p ∈ Multisig.tdata ms, ∃ q ∈ Multisig.tdata ms,
      p.2.scheme ≠ q.2.scheme) :
    Multisig.combine ext ms = .error .shareTypeMismatch := by
  have hconv := convertShares_none_mismatch (Multisig.tdata ms) hmix
  have t1 : thresholdAttrViewOk Codec.bls12381G1Sig = .ok () := tavOk_bls _ bls4_g1
  have t2 : thresholdAttrViewOk Codec.bls12381G2Sig = .ok () := tavOk_bls _ bls4_g2
  have d3 : ¬ (Codec.bls12381G2Sig = Codec.bls12381G1Sig) := by decide
  rcases hc with hc | hc <;>
    simp [Multisig.combine, hc, ht, hlen, hconv, t1, t2, d3]

/-- Same shares as `c5Agg` but with threshold 2, so the count gate passes. -/
def c5AggW : Multisig :=
  ⟨Codec.bls12381G2Sig, [],
    [(AttrId.threshold, [2]), (AttrId.thresholdData, ThresholdData.enc c5Td)]⟩

/-- Witness for the amended C5. -/
theorem combine_share_type_mismatch_witness :
    (c5AggW.codec = Codec.bls12381G1Sig ∨ c5AggW.codec = Codec.bls12381G2Sig) ∧
      Multisig.threshold c5AggW = .ok 2 ∧
      ¬ (Multisig.tdata c5AggW).length < 2 ∧
      (∃ p ∈ Multisig.tdata c5AggW, ∃ q ∈ Multisig.tdata c5AggW,
        p.2.scheme ≠ q.2.scheme) ∧
      Multisig.combine extOk96 c5AggW = .error .shareTypeMismatch :=
  ⟨by decide, by decide, by decide, by decide,
    combine_share_type_mismatch extOk96 c5AggW 2 (by decide) (by decide)
      (by decide) (by decide)⟩

/-- A plain G2 aggregate. -/
def c8Agg : Multisig := ⟨Codec.bls12381G2Sig, [], []⟩

/-- A combined (non-share) G2 Multisig carrying Threshold and Limit. -/
def c8Input : Multisig :=
  ⟨Codec.bls12381G2Sig, [], [(AttrId.threshold, [2]), (AttrId.limit, [3])]⟩

/-- C8 counterexample: `add_share` on a BLS aggregate with a combined
(non-share) input fails with `NotASignatureShare` (raised by the share's
`identifier()` accessor), not `IsASignatureShare` — refuting the claim as
stated.  `IsASignatureShare` is reserved for calling `add_share` on an
aggregate that is itself a share variant. -/
theorem add_share_combined_input_counterexample :
    Multisig.add_share c8Agg c8Input = .error .notASignatureShare ∧
      Multisig.add_share c8Agg c8Input ≠ .error .isASignatureShare := by
  decide

/-- C8 (amended): for every BLS aggregate, `add_share` with an input whose
algorithm id is a combined (non-share) BLS variant and which carries
readable Threshold and Limit attributes fails with `NotASignatureShare`;
the error arises in the input's `identifier()` accessor. -/
theorem add_share_combined_input_not_a_share (ms s : Multisig) (t n : Nat)
    (hagg : ms.codec = Codec.bls12381G1Sig ∨ ms.codec = Codec.bls12381G2Sig)
    (hs : s.codec = Codec.bls12381G1Sig ∨ s.codec = Codec.bls12381G2Sig)
    (hst : Multisig.threshold s = .ok t)
    (hsl : Multisig.limit s = .ok n) :
    Multisig.add_share ms s = .error .notASignatureShare := by
  have hnotshare : ¬ (s.codec = Codec.bls12381G1SigShare
      ∨ s.codec = Codec.bls12381G2SigShare) := by
    rcases hs with h | h <;> rw [h] <;> decide
  have hid : Multisig.identifier s = .error .notASignatureShare := by
    simp [Multisig.identifier, hnotshare]
  have hsview : thresholdAttrViewOk s.codec = .ok () := by
    rcases hs with h | h
    · rw [h]
      exact tavOk_bls _ bls4_g1
    · rw [h]
      exact tavOk_bls _ bls4_g2
  have d1 : ¬ (Codec.bls12381G1Sig = Codec.bls12381G1SigShare
      ∨ Codec.bls12381G1Sig = Codec.bls12381G2SigShare) := by decide
  have d2 : ¬ (Codec.bls12381G2Sig = Codec.bls12381G1SigShare
      ∨ Codec.bls12381G2Sig = Codec.bls12381G2SigShare) := by decide
  rcases hagg with hagg | hagg <;>
    simp [Multisig.add_share, hagg, hst, hsl, hid, hsview, d1, d2]

/-- Witness for the amended C8. -/
theorem add_share_combined_input_not_a_share_witness :
    (c8Agg.codec = Codec.bls12381G1Sig ∨ c8Agg.codec = Codec.bls12381G2Sig) ∧
      (c8Input.codec = Codec.bls12381G1Sig
        ∨ c8Input.codec = Codec.bls12381G2Sig) ∧
      Multisig.threshold c8Input = .ok 2 ∧ Multisig.limit c8Input = .ok 3 ∧
      Multisig.add_share c8Agg c8Input = .error .notASignatureShare :=
  ⟨by decide, by decide, by decide, by decide,
    add_share_combined_input_not_a_share c8Agg c8Input 2 3 (by decide)
      (by decide) (by decide) (by decide)⟩

/-- An aggregate already carrying Threshold = 5 and Limit = 6, no payload
encoding. -/
def c4Agg : Multisig :=
  ⟨Codec.bls12381G2Sig, [], [(AttrId.threshold, [5]), (AttrId.limit, [6])]⟩

/-- A G2 share carrying Threshold = 3, Limit = 4 and a payload encoding. -/
def c4Share : Multisig :=
  ⟨Codec.bls12381G2SigShare, [],
    [(AttrId.sigData, [9]), (AttrId.payloadEncoding, [0x55]),
     (AttrId.threshold, [3]), (AttrId.limit, [4]),
     (AttrId.shareIdentifier, [1]), (AttrId.thresholdData, [0])]⟩

/-- C4 (code bug): `add_share` overwrites the aggregate's existing
Threshold/Limit with the share's values ([5]/[6] become [3]/[4]), and never
copies the share's PayloadEncoding into an aggregate that lacks one —
contradicting both the spec and the code's own comments ("if this multisig
doesn't already have the threshold/limit set then set it to match the
values from the first share added"). -/
theorem add_share_attribute_propagation_bug :
    SMap.find? AttrId.threshold c4Agg.attributes = some [5] ∧
      SMap.find? AttrId.limit c4Agg.attributes = some [6] ∧
      SMap.find? AttrId.payloadEncoding c4Share.attributes = some [0x55] ∧
      (Multisig.add_share c4Agg c4Share).map
          (fun r => (SMap.find? AttrId.threshold r.attributes,
            SMap.find? AttrId.limit r.attributes,
            SMap.find? AttrId.payloadEncoding r.attributes))
        = .ok (some [3], some [4], none) := by
  decide

/-- One accumulated basic-scheme share used by the C3/C9 witnesses. -/
def c3Td : SMap SigShare := [(1, ⟨1, 2, 3, .basic, [9]⟩)]

/-- A G2 aggregate with payload encoding, Threshold = 2, one share. -/
def c3Agg : Multisig :=
  ⟨Codec.bls12381G2Sig, [7],
    [(AttrId.payloadEncoding, [0x55]), (AttrId.threshold, [2]),
     (AttrId.thresholdData, ThresholdData.enc c3Td)]⟩

/-- A G2 share with identifier 2, matching threshold/limit and scheme. -/
def c3Share : Multisig :=
  ⟨Codec.bls12381G2SigShare, [7],
    [(AttrId.sigData, [8]), (AttrId.threshold, [2]), (AttrId.limit, [3]),
     (AttrId.shareIdentifier, [2]), (AttrId.thresholdData, [0])]⟩

/-- Witness for C3: one share accumulated, threshold two — `combine` fails
`NotEnoughShares`; adding a second distinct share makes it succeed. -/
theorem combine_threshold_gate_witness :
    (Multisig.tdata c3Agg).length < 2 ∧
      (Multisig.tdata c3Agg).length + 1 = 2 ∧
      Multisig.combine extOk96 c3Agg = .error .notEnoughShares ∧
      (∃ ms2, Multisig.add_share c3Agg c3Share = .ok ms2 ∧
        (Multisig.combine extOk96 ms2).isOk = true) :=
  ⟨by decide, by decide,
    (combine_threshold_gate extOk96 c3Agg c3Share 2 3 2 0x55 .basic .basic
      (List.replicate 96 0) [0] [8] (by decide) (by decide) (by decide)
      (by decide) (by decide) (by decide) (by decide) (by decide) (by decide)
      (by decide) (by decide) (by decide) (fun _ => rfl) (fun _ => rfl)
      (by decide)).1 (by decide),
    (combine_threshold_gate extOk96 c3Agg c3Share 2 3 2 0x55 .basic .basic
      (List.replicate 96 0) [0] [8] (by decide) (by decide) (by decide)
      (by decide) (by decide) (by decide) (by decide) (by decide) (by decide)
      (by decide) (by decide) (by decide) (fun _ => rfl) (fun _ => rfl)
      (by decide)).2 (by decide)⟩

/-- C9: `combine()` on a G1 aggregate lacking the PayloadEncoding attribute
fails with `MissingPayloadEncoding` even when enough same-scheme shares are
accumulated and the external combination succeeds, while a G2 aggregate in
the same state succeeds, the result simply omitting PayloadEncoding (its
attributes are exactly SigData and Scheme). -/
theorem combine_payload_encoding_asymmetry (ext : ExtCombiner)
    (msg1 msg2 : Multisig) (t1 t2 : Nat) (sch s2 : SchemeTypeId)
    (sigB : List Nat)
    (hc1 : msg1.codec = Codec.bls12381G1Sig)
    (hpe1 : SMap.find? AttrId.payloadEncoding msg1.attributes = none)
    (ht1 : Multisig.threshold msg1 = .ok t1)
    (hlen1 : ¬ (Multisig.tdata msg1).length < t1)
    (hsch1 : ∀ p ∈ Multisig.tdata msg1, p.2.scheme = sch)
    (hg1 : ∀ x, ext.g1 x = .ok (s2, sigB))
    (hc2 : msg2.codec = Codec.bls12381G2Sig)
    (hpe2 : SMap.find? AttrId.payloadEncoding msg2.attributes = none)
    (ht2 : Multisig.threshold msg2 = .ok t2)
    (hlen2 : ¬ (Multisig.tdata msg2).length < t2)
    (hsch2 : ∀ p ∈ Multisig.tdata msg2, p.2.scheme = sch)
    (hg2 : ∀ x, ext.g2 x = .ok (s2, sigB))
    (hsig : sigB.length = 96) :
    Multisig.combine ext msg1 = .error .missingPayloadEncoding ∧
      Multisig.combine ext msg2 = .ok ⟨Codec.bls12381G2Msig, msg2.message,
        SMap.ins AttrId.scheme (encVaruint s2.code)
          (SMap.ins AttrId.sigData sigB [])⟩ := by
  constructor
  · exact Multisig.combine_g1_missing_pe ext msg1 t1 sch s2 sigB hc1 ht1
      hlen1 hsch1 (hg1 _) hpe1
  · have hnf : newFromBlsSignature (s2, sigB) = .ok (Codec.bls12381G2Msig,
        SMap.ins AttrId.scheme (encVaruint s2.code)
          (SMap.ins AttrId.sigData sigB [])) := by
      simp [newFromBlsSignature, hsig]
    have hpemiss : Multisig.payload_encoding msg2 = .error .missingPayloadEncoding := by
      simp [Multisig.payload_encoding, hpe2]
    rw [Multisig.combine_g2_ok ext msg2 t2 sch s2 sigB _ hc2 ht2 hlen2 hsch2
      (hg2 _) hnf]
    simp [hpemiss, Except.toOption]

/-- A G1 aggregate lacking PayloadEncoding, with one basic share and
threshold 1. -/
def c9G1 : Multisig :=
  ⟨Codec.bls12381G1Sig, [],
    [(AttrId.threshold, [1]), (AttrId.thresholdData, ThresholdData.enc c3Td)]⟩

/-- The same aggregate state on the G2 codec. -/
def c9G2 : Multisig :=
  ⟨Codec.bls12381G2Sig, [],
    [(AttrId.threshold, [1]), (AttrId.thresholdData, ThresholdData.enc c3Td)]⟩

/-- Witness for C9. -/
theorem combine_payload_encoding_asymmetry_witness :
    SMap.find? AttrId.payloadEncoding c9G1.attributes = none ∧
      SMap.find? AttrId.payloadEncoding c9G2.attributes = none ∧
      ¬ (Multisig.tdata c9G1).length < 1 ∧
      Multisig.combine extOk96 c9G1 = .error .missingPayloadEncoding ∧
      Multisig.combine extOk96 c9G2 = .ok ⟨Codec.bls12381G2Msig, [],
        SMap.ins AttrId.scheme (encVaruint SchemeTypeId.basic.code)
          (SMap.ins AttrId.sigData (List.replicate 96 0) [])⟩ :=
  ⟨by decide, by decide, by decide,
    (combine_payload_encoding_asymmetry extOk96 c9G1 c9G2 1 1 .basic .basic
      (List.replicate 96 0) (by decide) (by decide) (by decide) (by decide)
      (by decide) (fun _ => rfl) (by decide) (by decide) (by decide)
      (by decide) (by decide) (fun _ => rfl) (by decide)).1,
    (combine_payload_encoding_asymmetry extOk96 c9G1 c9G2 1 1 .basic .basic
      (List.replicate 96 0) (by decide) (by decide) (by decide) (by decide)
      (by decide) (fun _ => rfl) (by decide) (by decide) (by decide)
      (by decide) (by decide) (fun _ => rfl) (by decide)).2⟩

/-- C10: decoding a serialized ThresholdData whose entries repeat an
identifier does not fail — the decoded map is the insertion fold of the
entries, so the later entry silently overwrites the earlier one and the
share count reflects one entry per identifier; the value stored under the
repeated identifier is the last entry. -/
theorem threshold_data_duplicate_identifier_last_wins
    (pre : List SigShare) (s1 s2 : SigShare)
    (h256 : ∀ s ∈ pre ++ [s1, s2], s.ident < 256)
    (hid : s1.ident = s2.ident) :
    ThresholdData.dec (encVaruint (pre.length + 2)
        ++ ((pre ++ [s1, s2]).map SigShare.enc).flatten)
      = .ok ((pre ++ [s1, s2]).foldl (fun a s => SMap.ins s.ident s a) [], []) ∧
      SMap.find? s1.ident
          ((pre ++ [s1, s2]).foldl (fun a s => SMap.ins s.ident s a) [])
        = some s2 := by
  constructor
  · have heat := ThresholdData.decLoop_eat (pre ++ [s1, s2]) 0 [] [] h256
    rw [List.append_nil] at heat
    have hlen : (pre ++ [s1, s2]).length + 0 = (pre.length + 1) + 1 := by
      simp
    rw [hlen] at heat
    have h2 : pre.length + 2 = (pre.length + 1) + 1 := by omega
    rw [h2]
    simp only [ThresholdData.dec, decVaruint_encVaruint]
    rw [heat]
    simp [ThresholdData.decLoop]
  · simp [List.foldl_append, SMap.find?_ins, hid]

/-- First share under identifier 1. -/
def c10S1 : SigShare := ⟨1, 2, 3, .basic, [5]⟩

/-- A later share reusing identifier 1. -/
def c10S2 : SigShare := ⟨1, 9, 9, .proofOfPossession, [6]⟩

/-- Witness for C10: a two-entry buffer repeating identifier 1 decodes
without error and keeps only the later share. -/
theorem threshold_data_duplicate_identifier_last_wins_witness :
    (∀ s ∈ ([] : List SigShare) ++ [c10S1, c10S2], s.ident < 256) ∧
      c10S1.ident = c10S2.ident ∧
      ThresholdData.dec (encVaruint (([] : List SigShare).length + 2)
          ++ ((([] : List SigShare) ++ [c10S1, c10S2]).map SigShare.enc).flatten)
        = .ok ((([] : List SigShare) ++ [c10S1, c10S2]).foldl
            (fun a s => SMap.ins s.ident s a) [], []) ∧
      SMap.find? c10S1.ident
          ((([] : List SigShare) ++ [c10S1, c10S2]).foldl
            (fun a s => SMap.ins s.ident s a) [])
        = some c10S2 :=
  ⟨by decide, by decide,
    (threshold_data_duplicate_identifier_last_wins [] c10S1 c10S2 (by decide)
      (by decide)).1,
    (threshold_data_duplicate_identifier_last_wins [] c10S1 c10S2 (by decide)
      (by decide)).2⟩
